import Mathlib

/-!
# Verification of the serde-pickle decoder (src/de.rs)

Shallow embedding of the pickle deserializer from `src/de.rs`.  The byte
stream is modelled as a `List Nat` (each entry a byte value), the
`Deserializer` struct as an explicit state record, and every fallible
operation as `Except Err`.  The opcode dispatch loop `parse_value` and the
canonicalizer `deserialize_value` are unbounded loops / non-structural
recursions in the source; they are embedded with an explicit fuel argument
and return `Option` (`none` = fuel exhausted; one unit of fuel is consumed
per loop iteration, so `input.length + 1` fuel always suffices for
`parse_value`).

Modules of the crate that are referenced by `src/de.rs` but are not part of
the sources under verification (`consts.rs` with the opcode byte values,
`error.rs` with the error enums, `value.rs` with the canonical value types)
are modelled from the specification; each such definition is marked
`Modelled from the spec` in its doc comment.
-/

set_option maxRecDepth 10000

/-- Supported module globals (enum `Global` in src/de.rs). -/
inductive PGlobal where
  | Set
  | Frozenset
  | Encode

/-- Intermediate representation of a value (enum `Value` in src/de.rs).
`MemoRef` references values put into the memo map.  Rust `BigInt` is
modelled as `Int`, Rust `String` as Lean `String`, byte vectors as
`List Nat`.  IEEE-754 payloads (`F64`) are kept as the raw source bytes,
since no claim concerns floating point. -/
inductive Value where
  | MemoRef (id : Nat)
  | Global (g : PGlobal)
  | None
  | Bool (b : Bool)
  | I64 (i : Int)
  | Int (i : Int)
  | F64 (raw : List Nat)
  | Bytes (bs : List Nat)
  | String (s : String)
  | List (items : List Value)
  | Tuple (items : List Value)
  | Set (items : List Value)
  | FrozenSet (items : List Value)
  | Dict (items : List (Value × Value))

/-- Modelled from the spec (§7) and the uses in src/de.rs: the `ErrorCode`
enum of the missing `error.rs`.  `InvalidStackTop` carries the offending
value itself in place of the source's `format!("{:?}", value)` string. -/
inductive ErrorCode where
  | EOFWhileParsing
  | StackUnderflow
  | MissingMemo (id : Nat)
  | Recursive
  | InvalidLiteral (bytes : List Nat)
  | NegativeLength
  | StringNotUTF8
  | InvalidStackTop (expected : String) (got : Value)
  | InvalidValue (context : String)
  | UnsupportedGlobal (modname : List Nat) (globname : List Nat)
  | UnresolvedGlobal
  | Unsupported (opcode : Nat)
  | TrailingBytes
  | Custom (msg : String)

/-- Modelled from the spec (§7) and the uses in src/de.rs: the `Error` enum
of the missing `error.rs`.  The `Io` variant never occurs for in-memory
byte slices and is omitted. -/
inductive Err where
  | Eval (code : ErrorCode) (pos : Nat)
  | Syntax (code : ErrorCode)

/-- Lookup in an association-list model of `BTreeMap` (`memo`, `memo_refs`). -/
def alookup {α : Type} : List (Nat × α) → Nat → Option α
  | [], _ => none
  | (k, v) :: rest, id => if k = id then some v else alookup rest id

/-- Insert (replacing an existing binding) in the association-list model of
`BTreeMap`.  Keys stay unduplicated, so the list length models
`BTreeMap::len`. -/
def ainsert {α : Type} : List (Nat × α) → Nat → α → List (Nat × α)
  | [], id, v => [(id, v)]
  | (k, w) :: rest, id, v =>
      if k = id then (id, v) :: rest else (k, w) :: ainsert rest id v

/-- Remove a binding in the association-list model of `BTreeMap` (used for
`memo.remove` in `resolve_recursive`). -/
def aerase {α : Type} : List (Nat × α) → Nat → List (Nat × α)
  | [], _ => []
  | (k, w) :: rest, id => if k = id then aerase rest id else (k, w) :: aerase rest id

/-- The decoder state (struct `Deserializer` in src/de.rs).  `input` is the
unread rest of the byte stream; the `stack` list has its head at the stack
top (the end of the Rust `Vec`); `stacks` likewise has the most recent MARK
frame first.  The `value` push-back slot of the typed adapter is not
modelled (no claim depends on it). -/
structure DState where
  input : List Nat
  pos : Nat
  memo : List (Nat × Value)
  memo_refs : List (Nat × Int)
  stack : List Value
  stacks' : List (List Value)
  decode_strings : Bool

/-- Source `Deserializer::new` over a byte slice. -/
def initState (input : List Nat) (decode_strings : Bool) : DState :=
  { input := input, pos := 0, memo := [], memo_refs := [],
    stack := [], stacks' := [], decode_strings := decode_strings }

/-- Source `read_byte` (src/de.rs:495): one byte or EOF-while-parsing. -/
def read_byte (st : DState) : Except Err (Nat × DState) :=
  match st.input with
  | [] => .error (.Eval .EOFWhileParsing st.pos)
  | b :: rest => .ok (b, { st with input := rest, pos := st.pos + 1 })

/-- Source `read_bytes` (src/de.rs:508): exactly `n` bytes or EOF error. -/
def read_bytes (st : DState) (n : Nat) : Except Err (List Nat × DState) :=
  if n ≤ st.input.length then
    .ok (st.input.take n, { st with input := st.input.drop n, pos := st.pos + n })
  else .error (.Eval .EOFWhileParsing st.pos)

/-- Split the input at the first newline: the first component is the bytes
up to and including the `\n` (or the whole input when no newline occurs,
matching `BufRead::read_until` at EOF). -/
def readUntilNL : List Nat → (List Nat × List Nat)
  | [] => ([], [])
  | b :: rest =>
      if b = 10 then ([b], rest)
      else
        let (line, rem) := readUntilNL rest
        (b :: line, rem)

/-- Source `read_line` (src/de.rs:482-492): `read_until(b'\n')`, advance `pos` by
the buffer length, then pop the last byte if it is `\r`.  NOTE: the code
pops only a trailing `\r`; it does not pop the `\n` terminator itself, so
a line found via its `\n` is returned with the `\n` still present. -/
def read_line (st : DState) : Except Err (List Nat × DState) :=
  let (buf, rest) := readUntilNL st.input
  let pos := st.pos + buf.length
  let buf := if buf.getLast? = some 13 then buf.dropLast else buf
  .ok (buf, { st with input := rest, pos := pos })

/-- Source `read_u8_prefixed_bytes` (src/de.rs:539). -/
def read_u8_prefixed_bytes (st : DState) : Except Err (List Nat × DState) :=
  match read_byte st with
  | .error e => .error e
  | .ok (len, st) => read_bytes st len

/-- Unsigned little-endian value of a byte list, as computed by the
byte-order fold (`LittleEndian::read_*`, `BigInt::from_bytes_le`). -/
def bytesToNatLE : List Nat → Nat
  | [] => 0
  | b :: rest => b + 256 * bytesToNatLE rest

/-- Source `read_i32_prefixed_bytes` (src/de.rs:520): length read as signed i32;
zero gives the empty vector, a negative length is an error. -/
def read_i32_prefixed_bytes (st : DState) : Except Err (List Nat × DState) :=
  match read_bytes st 4 with
  | .error e => .error e
  | .ok (lenbytes, st) =>
      let l := bytesToNatLE lenbytes
      if l = 0 then .ok ([], st)
      else if 2 ^ 31 ≤ l then .error (.Eval .NegativeLength st.pos)
      else read_bytes st l

/-- Source `read_u32_prefixed_bytes` (src/de.rs:534). -/
def read_u32_prefixed_bytes (st : DState) : Except Err (List Nat × DState) :=
  match read_bytes st 4 with
  | .error e => .error e
  | .ok (lenbytes, st) => read_bytes st (bytesToNatLE lenbytes)

/-- Source `read_u64_prefixed_bytes` (src/de.rs:529). -/
def read_u64_prefixed_bytes (st : DState) : Except Err (List Nat × DState) :=
  match read_bytes st 8 with
  | .error e => .error e
  | .ok (lenbytes, st) => read_bytes st (bytesToNatLE lenbytes)

/-- ASCII decimal digit test. -/
def isDigit (b : Nat) : Bool := 48 ≤ b && b ≤ 57

/-- Value of a list of ASCII decimal digits. -/
def digitsToNat (ds : List Nat) : Nat := ds.foldl (fun acc b => acc * 10 + (b - 48)) 0

/-- Source `parse_ascii::<u32>` success semantics (`str::parse` for `u32`, used for
PUT/GET memo ids): an optional leading `+`, then one or more ASCII digits,
value below `2^32`; anything else (including overflow) fails. -/
def parse_ascii_u32 (bs : List Nat) : Option Nat :=
  let ds := match bs with
    | 43 :: rest => rest
    | _ => bs
  if ds ≠ [] && ds.all isDigit && digitsToNat ds < 2 ^ 32 then some (digitsToNat ds)
  else none

/-- Source `parse_ascii::<i64>` success semantics (`str::parse` for `i64`, used by
the INT opcode): optional sign, one or more digits, value in i64 range. -/
def parse_ascii_i64 (bs : List Nat) : Option Int :=
  let (neg, ds) : Bool × List Nat := match bs with
    | 43 :: rest => (false, rest)
    | 45 :: rest => (true, rest)
    | _ => (false, bs)
  if ds ≠ [] && ds.all isDigit then
    let v : Int := (digitsToNat ds : Int)
    let v := if neg then -v else v
    if -(2 ^ 63) ≤ v && v < 2 ^ 63 then some v else none
  else none

/-- Source `BigInt::parse_bytes(line, 10)` success semantics (used by the LONG
opcode): optional sign, then one or more decimal digits; no range limit. -/
def parse_decimal_big (bs : List Nat) : Option Int :=
  let (neg, ds) : Bool × List Nat := match bs with
    | 43 :: rest => (false, rest)
    | 45 :: rest => (true, rest)
    | _ => (false, bs)
  if ds ≠ [] && ds.all isDigit then
    some (if neg then -(digitsToNat ds : Int) else (digitsToNat ds : Int))
  else none

/-- Source `decode_text_int` (src/de.rs:553): the literal `00` is `False`, `01` is
`True`, anything else parses as a signed i64. -/
def decode_text_int (pos : Nat) (line : List Nat) : Except Err Value :=
  if line = [48, 48] then .ok (.Bool false)
  else if line = [48, 49] then .ok (.Bool true)
  else match parse_ascii_i64 line with
    | some i => .ok (.I64 i)
    | none => .error (.Eval (.InvalidLiteral line) pos)

/-- Source `decode_text_long` (src/de.rs:566): strip a trailing `L`, then parse as
an arbitrary-precision signed decimal; the result is always the `Int`
variant (never `I64`). -/
def decode_text_long (pos : Nat) (line : List Nat) : Except Err Value :=
  let line := if line.getLast? = some 76 then line.dropLast else line
  match parse_decimal_big line with
  | some i => .ok (.Int i)
  | none => .error (.Eval (.InvalidLiteral line) pos)

/-- Source `char::to_digit(16)`: value of one ASCII hex digit. -/
def hexDigit (b : Nat) : Option Nat :=
  if 48 ≤ b && b ≤ 57 then some (b - 48)
  else if 97 ≤ b && b ≤ 102 then some (b - 97 + 10)
  else if 65 ≤ b && b ≤ 70 then some (b - 65 + 10)
  else none

/-- Quote stripping at the start of `decode_escaped_string`
(src/de.rs:579-585): matching single or double quotes around the line are
removed. -/
def unquote_line (s : List Nat) : List Nat :=
  if 2 ≤ s.length && s.headD 0 = s.getLastD 0 && (s.headD 0 = 34 || s.headD 0 = 39) then
    (s.drop 1).dropLast
  else s

/-- One escape sequence of `decode_escaped_string` (src/de.rs:591-611):
given the bytes after a backslash, return the decoded byte and how many
input bytes the escape consumed.  `\\ \a \b \t \n \v \f \r` map to their
C byte values; `\xHH` consumes exactly two hex digits; anything else
(including `\x` followed by fewer than two hex digits) is an
`InvalidLiteral` error carrying the (unquoted) line `orig`. -/
def escape_code (pos : Nat) (orig : List Nat) : List Nat → Except Err (Nat × Nat)
  | [] => .error (.Eval (.InvalidLiteral orig) pos)
  | c :: rest2 =>
      if c = 92 then .ok (92, 1)
      else if c = 97 then .ok (7, 1)
      else if c = 98 then .ok (8, 1)
      else if c = 116 then .ok (9, 1)
      else if c = 110 then .ok (10, 1)
      else if c = 118 then .ok (11, 1)
      else if c = 102 then .ok (12, 1)
      else if c = 114 then .ok (13, 1)
      else if c = 120 then
        match rest2 with
        | [] => .error (.Eval (.InvalidLiteral orig) pos)
        | c1 :: rest3 =>
            match hexDigit c1 with
            | none => .error (.Eval (.InvalidLiteral orig) pos)
            | some v1 =>
                match rest3 with
                | [] => .error (.Eval (.InvalidLiteral orig) pos)
                | c2 :: _ =>
                    match hexDigit c2 with
                    | none => .error (.Eval (.InvalidLiteral orig) pos)
                    | some v2 => .ok (16 * v1 + v2, 3)
      else .error (.Eval (.InvalidLiteral orig) pos)

/-- The escape-processing loop of `decode_escaped_string`
(src/de.rs:588-615): copy bytes, decoding each backslash escape with
`escape_code` and skipping the bytes it consumed. -/
def escape_loop (pos : Nat) (orig : List Nat) : List Nat → Except Err (List Nat)
  | [] => .ok []
  | b :: rest =>
      if b = 92 then
        match escape_code pos orig rest with
        | .error e => .error e
        | .ok (v, k) => (escape_loop pos orig (rest.drop k)).map (v :: ·)
      else (escape_loop pos orig rest).map (b :: ·)
termination_by bs => bs.length
decreasing_by
  · simp only [List.length_drop, List.length_cons]
    omega
  · simp

/-- Strict UTF-8 decoding (`String::from_utf8` semantics): rejects bad
continuation bytes, overlong encodings, surrogates and values above
U+10FFFF. -/
def utf8Decode : List Nat → Option (List Char)
  | [] => some []
  | b :: rest =>
      if b < 128 then
        (utf8Decode rest).map (Char.ofNat b :: ·)
      else if 194 ≤ b && b ≤ 223 then
        match rest with
        | c1 :: rest1 =>
            if 128 ≤ c1 && c1 ≤ 191 then
              (utf8Decode rest1).map (Char.ofNat ((b - 192) * 64 + (c1 - 128)) :: ·)
            else none
        | _ => none
      else if 224 ≤ b && b ≤ 239 then
        match rest with
        | c1 :: c2 :: rest2 =>
            let lo1 := if b = 224 then 160 else 128
            let hi1 := if b = 237 then 159 else 191
            if lo1 ≤ c1 && c1 ≤ hi1 && 128 ≤ c2 && c2 ≤ 191 then
              (utf8Decode rest2).map
                (Char.ofNat ((b - 224) * 4096 + (c1 - 128) * 64 + (c2 - 128)) :: ·)
            else none
        | _ => none
      else if 240 ≤ b && b ≤ 244 then
        match rest with
        | c1 :: c2 :: c3 :: rest3 =>
            let lo1 := if b = 240 then 144 else 128
            let hi1 := if b = 244 then 143 else 191
            if lo1 ≤ c1 && c1 ≤ hi1 && 128 ≤ c2 && c2 ≤ 191 && 128 ≤ c3 && c3 ≤ 191 then
              (utf8Decode rest3).map
                (Char.ofNat ((b - 240) * 262144 + (c1 - 128) * 4096 + (c2 - 128) * 64
                  + (c3 - 128)) :: ·)
            else none
        | _ => none
      else none

/-- UTF-8 encoding of one character (`String::into_bytes` semantics). -/
def utf8EncodeChar (c : Char) : List Nat :=
  let n := c.toNat
  if n < 128 then [n]
  else if n < 2048 then [192 + n / 64, 128 + n % 64]
  else if n < 65536 then [224 + n / 4096, 128 + n / 64 % 64, 128 + n % 64]
  else [240 + n / 262144, 128 + n / 4096 % 64, 128 + n / 64 % 64, 128 + n % 64]

/-- Source `String::into_bytes`: the UTF-8 bytes of a string. -/
def utf8Encode (s : String) : List Nat := s.data.flatMap utf8EncodeChar

/-- Source `decode_unicode` (src/de.rs:662): UTF-8 decode or `StringNotUTF8`. -/
def decode_unicode (pos : Nat) (string : List Nat) : Except Err Value :=
  match utf8Decode string with
  | some cs => .ok (.String (String.mk cs))
  | none => .error (.Eval .StringNotUTF8 pos)

/-- Source `decode_string` (src/de.rs:653): Unicode or raw bytes depending on the
`decode_strings` mode. -/
def decode_string (decodeStrings : Bool) (pos : Nat) (string : List Nat) : Except Err Value :=
  if decodeStrings then decode_unicode pos string else .ok (.Bytes string)

/-- Source `decode_escaped_string` (src/de.rs:577): strip quotes, process escapes,
then decode per the string mode. -/
def decode_escaped_string (decodeStrings : Bool) (pos : Nat) (slice : List Nat) :
    Except Err Value :=
  let slice := unquote_line slice
  match escape_loop pos slice slice with
  | .error e => .error e
  | .ok result => decode_string decodeStrings pos result

/-- Hex value of a run of hex digits (`None` at the first non-digit). -/
def hexValueAcc : Nat → List Nat → Option Nat
  | acc, [] => some acc
  | acc, c :: cs =>
      match hexDigit c with
      | some v => hexValueAcc (acc * 16 + v) cs
      | none => none

/-- Source `decode_escaped_unicode` (src/de.rs:622): raw-unicode-escape; only
`\uXXXX` and `\UXXXXXXXX` are recognized (four / eight hex digits
exactly), non-escape bytes widen as Latin-1; the code point must be a
valid scalar (`char::from_u32`). -/
def decode_escaped_unicode_loop (pos : Nat) (orig : List Nat) :
    List Nat → Except Err (List Char)
  | [] => .ok []
  | b :: rest =>
      if b = 92 then
        match rest with
        | [] => .error (.Eval (.InvalidLiteral orig) pos)
        | c :: rest1 =>
            if c = 117 ∨ c = 85 then
              let nescape := if c = 117 then 4 else 8
              if nescape ≤ rest1.length then
                match hexValueAcc 0 (rest1.take nescape) with
                | none => .error (.Eval (.InvalidLiteral orig) pos)
                | some accum =>
                    if h : accum.isValidChar then
                      (decode_escaped_unicode_loop pos orig (rest1.drop nescape)).map
                        (Char.ofNatAux accum h :: ·)
                    else .error (.Eval (.InvalidLiteral orig) pos)
              else .error (.Eval (.InvalidLiteral orig) pos)
            else .error (.Eval (.InvalidLiteral orig) pos)
      else (decode_escaped_unicode_loop pos orig rest).map (Char.ofNat b :: ·)
termination_by bs => bs.length
decreasing_by
  · simp only [List.length_drop, List.length_cons]
    omega
  · simp

/-- Source `decode_escaped_unicode` (src/de.rs:622). -/
def decode_escaped_unicode (pos : Nat) (s : List Nat) : Except Err Value :=
  match decode_escaped_unicode_loop pos s s with
  | .error e => .error e
  | .ok cs => .ok (.String (String.mk cs))

/-- Source `decode_binary_long` (src/de.rs:670): little-endian two's complement;
if the high bit of the last byte is set, subtract `2^(8·len)` from the
unsigned little-endian value. -/
def decode_binary_long (bytes : List Nat) : Value :=
  let negative := !bytes.isEmpty && (bytes.getLastD 0 &&& 128 != 0)
  let val : Int := (bytesToNatLE bytes : Int)
  .Int (if negative then val - 2 ^ (bytes.length * 8) else val)

/-- Source `pop` (src/de.rs:373): pop the stack top or `StackUnderflow`. -/
def pop (st : DState) : Except Err (Value × DState) :=
  match st.stack with
  | v :: rest => .ok (v, { st with stack := rest })
  | [] => .error (.Eval .StackUnderflow st.pos)

/-- Source `resolve` (src/de.rs:432): resolve a memo reference during stream
decoding.  A `MemoRef` has its refcount decremented and is looked up in
the memo (without removal); the result is `none` when the id is absent or
when the input was `none`. -/
def resolve (st : DState) (maybe_memo : Option Value) : Option Value × DState :=
  match maybe_memo with
  | some (.MemoRef id) =>
      let refs := match alookup st.memo_refs id with
        | some count => ainsert st.memo_refs id (count - 1)
        | none => st.memo_refs
      (alookup st.memo id, { st with memo_refs := refs })
  | other => (other, st)

/-- Source `pop_resolve` (src/de.rs:381): pop and resolve; `none` (empty stack or
missing memo entry) is `StackUnderflow`. -/
def pop_resolve (st : DState) : Except Err (Value × DState) :=
  let (top, st1) : Option Value × DState :=
    match st.stack with
    | v :: rest => (some v, { st with stack := rest })
    | [] => (none, st)
  match resolve st1 top with
  | (some v, st2) => .ok (v, st2)
  | (none, st2) => .error (.Eval .StackUnderflow st2.pos)

/-- Source `top` (src/de.rs:390): view the stack top; a `MemoRef` top is
dereferenced into the memo (`Syntax(MissingMemo)` when absent). -/
def top_value (st : DState) : Except Err Value :=
  match st.stack with
  | [] => .error (.Eval .StackUnderflow st.pos)
  | .MemoRef n :: _ =>
      match alookup st.memo n with
      | none => .error (.Syntax (.MissingMemo n))
      | some v => .ok v
  | v :: _ => .ok v

/-- Source `pop_mark` (src/de.rs:403): restore the topmost marker frame and return
the items pushed since the MARK, in push order (the Rust `Vec` order, i.e.
the reverse of our head-is-top list). -/
def pop_mark (st : DState) : Except Err (List Value × DState) :=
  match st.stacks' with
  | new :: rest => .ok (st.stack.reverse, { st with stack := new, stacks' := rest })
  | [] => .error (.Eval .StackUnderflow st.pos)

/-- Source `push_memo_ref` (src/de.rs:411): push `MemoRef(id)` and increment the
reference counter. -/
def push_memo_ref (st : DState) (memo_id : Nat) : DState :=
  let count := (alookup st.memo_refs memo_id).getD 0
  { st with stack := .MemoRef memo_id :: st.stack,
            memo_refs := ainsert st.memo_refs memo_id (count + 1) }

/-- Source `memoize` (src/de.rs:419): pop the top, dereference it if it is itself
a `MemoRef` (`MissingMemo` when absent), store it in the memo under
`memo_id` and push back a `MemoRef`. -/
def memoize (st : DState) (memo_id : Nat) : Except Err DState :=
  match pop st with
  | .error e => .error e
  | .ok (item, st1) =>
      match item with
      | .MemoRef id =>
          match alookup st1.memo id with
          | none => .error (.Eval (.MissingMemo id) st1.pos)
          | some item2 =>
              .ok (push_memo_ref { st1 with memo := ainsert st1.memo memo_id item2 } memo_id)
      | _ => .ok (push_memo_ref { st1 with memo := ainsert st1.memo memo_id item } memo_id)

/-- Source `modify_list` (src/de.rs:682): apply `f` to the stack-top list.  A
`MemoRef` top is modified through the memo (this is how a memoized list is
appended to in place); a top of any other kind is an `InvalidStackTop`
error carrying the observed value. -/
def modify_list (st : DState) (f : List Value → List Value) : Except Err DState :=
  match st.stack with
  | [] => .error (.Eval .StackUnderflow st.pos)
  | .MemoRef n :: _ =>
      match alookup st.memo n with
      | none => .error (.Syntax (.MissingMemo n))
      | some (.List l) => .ok { st with memo := ainsert st.memo n (.List (f l)) }
      | some other => .error (.Eval (.InvalidStackTop "list" other) st.pos)
  | .List l :: rest => .ok { st with stack := .List (f l) :: rest }
  | other :: _ => .error (.Eval (.InvalidStackTop "list" other) st.pos)

/-- Source `modify_dict` (src/de.rs:704): same discipline for the stack-top dict. -/
def modify_dict (st : DState) (f : List (Value × Value) → List (Value × Value)) :
    Except Err DState :=
  match st.stack with
  | [] => .error (.Eval .StackUnderflow st.pos)
  | .MemoRef n :: _ =>
      match alookup st.memo n with
      | none => .error (.Syntax (.MissingMemo n))
      | some (.Dict d) => .ok { st with memo := ainsert st.memo n (.Dict (f d)) }
      | some other => .error (.Eval (.InvalidStackTop "dict" other) st.pos)
  | .Dict d :: rest => .ok { st with stack := .Dict (f d) :: rest }
  | other :: _ => .error (.Eval (.InvalidStackTop "dict" other) st.pos)

/-- Source `modify_set` (src/de.rs:717): same discipline for the stack-top set. -/
def modify_set (st : DState) (f : List Value → List Value) : Except Err DState :=
  match st.stack with
  | [] => .error (.Eval .StackUnderflow st.pos)
  | .MemoRef n :: _ =>
      match alookup st.memo n with
      | none => .error (.Syntax (.MissingMemo n))
      | some (.Set l) => .ok { st with memo := ainsert st.memo n (.Set (f l)) }
      | some other => .error (.Eval (.InvalidStackTop "set" other) st.pos)
  | .Set l :: rest => .ok { st with stack := .Set (f l) :: rest }
  | other :: _ => .error (.Eval (.InvalidStackTop "set" other) st.pos)

/-- The `key.take()` loop of `extend_dict` (src/de.rs:693): consume a
(key, value, key, value, …) flattened list; a trailing unpaired key is
dropped. -/
def extend_dict_go : List (Value × Value) → Option Value → List Value → List (Value × Value)
  | dict, _, [] => dict
  | dict, none, v :: rest => extend_dict_go dict (some v) rest
  | dict, some k, v :: rest => extend_dict_go (dict ++ [(k, v)]) none rest

/-- Source `extend_dict` (src/de.rs:693). -/
def extend_dict (dict : List (Value × Value)) (items : List Value) : List (Value × Value) :=
  extend_dict_go dict none items

/-- ASCII bytes of a string literal (module/global names). -/
def strBytes (s : String) : List Nat := s.data.map Char.toNat

/-- Source `decode_global` (src/de.rs:730): map (module, name) pairs to the
supported `Global` placeholders. -/
def decode_global (st : DState) (modname globname : List Nat) : Except Err Value :=
  if modname = strBytes "_codecs" ∧ globname = strBytes "encode" then
    .ok (.Global .Encode)
  else if (modname = strBytes "__builtin__" ∨ modname = strBytes "builtins") ∧
      globname = strBytes "set" then
    .ok (.Global .Set)
  else if (modname = strBytes "__builtin__" ∨ modname = strBytes "builtins") ∧
      globname = strBytes "frozenset" then
    .ok (.Global .Frozenset)
  else .error (.Eval (.UnsupportedGlobal modname globname) st.pos)

/-- Source `Vec::pop` on the argument tuple: last element (if any) and the rest. -/
def popLast (items : List Value) : Option Value × List Value :=
  (items.getLast?, items.dropLast)

/-- Source `reduce_global` (src/de.rs:743): the REDUCE reductions for the three
supported globals.  Arguments are taken from the end of the argument tuple
(`Vec::pop`) and resolved through the memo; `_codecs.encode` maps each
character of the string argument to its Unicode scalar value truncated to
8 bits (`ch as u8`). -/
def reduce_global (st : DState) (global : Value) (argtuple : List Value) :
    Except Err DState :=
  match global with
  | .Global .Set =>
      let (arg, _) := popLast argtuple
      match resolve st arg with
      | (some (.List items), st1) => .ok { st1 with stack := .Set items :: st1.stack }
      | (_, st1) => .error (.Eval (.InvalidValue "set() arg") st1.pos)
  | .Global .Frozenset =>
      let (arg, _) := popLast argtuple
      match resolve st arg with
      | (some (.List items), st1) => .ok { st1 with stack := .FrozenSet items :: st1.stack }
      | (_, st1) => .error (.Eval (.InvalidValue "set() arg") st1.pos)
  | .Global .Encode =>
      let (encArg, rest1) := popLast argtuple
      match resolve st encArg with
      | (some (.String _), st1) =>
          let (strArg, _) := popLast rest1
          match resolve st1 strArg with
          | (some (.String s), st2) =>
              .ok { st2 with stack := .Bytes (s.data.map (fun ch => ch.toNat % 256)) :: st2.stack }
          | (_, st2) => .error (.Eval (.InvalidValue "encode() arg") st2.pos)
      | (_, st1) => .error (.Eval (.InvalidValue "encode() arg") st1.pos)
  | other => .error (.Eval (.InvalidStackTop "global reference" other) st.pos)

/-- Modelled from the spec (§6): the opcode byte constants of the missing
`consts.rs` — "All opcode numerical constants and their operand shapes
match the canonical pickle opcode table for protocols 0-4". -/
def MARK : Nat := 40
def EMPTY_TUPLE : Nat := 41
def STOP : Nat := 46
def POP : Nat := 48
def POP_MARK : Nat := 49
def DUP : Nat := 50
def BINBYTES : Nat := 66
def SHORT_BINBYTES : Nat := 67
def FLOAT : Nat := 70
def BINFLOAT : Nat := 71
def INT : Nat := 73
def BININT : Nat := 74
def BININT1 : Nat := 75
def LONG : Nat := 76
def BININT2 : Nat := 77
def NONE : Nat := 78
def REDUCE : Nat := 82
def STRING : Nat := 83
def BINSTRING : Nat := 84
def SHORT_BINSTRING : Nat := 85
def UNICODE : Nat := 86
def BINUNICODE : Nat := 88
def EMPTY_LIST : Nat := 93
def APPEND : Nat := 97
def GLOBAL : Nat := 99
def DICT : Nat := 100
def APPENDS : Nat := 101
def GET : Nat := 103
def BINGET : Nat := 104
def LONG_BINGET : Nat := 106
def LIST : Nat := 108
def PUT : Nat := 112
def BINPUT : Nat := 113
def LONG_BINPUT : Nat := 114
def SETITEM : Nat := 115
def TUPLE : Nat := 116
def SETITEMS : Nat := 117
def EMPTY_DICT : Nat := 125
def PROTO : Nat := 128
def TUPLE1 : Nat := 133
def TUPLE2 : Nat := 134
def TUPLE3 : Nat := 135
def NEWTRUE : Nat := 136
def NEWFALSE : Nat := 137
def LONG1 : Nat := 138
def LONG4 : Nat := 139
def SHORT_BINUNICODE : Nat := 140
def BINUNICODE8 : Nat := 141
def BINBYTES8 : Nat := 142
def EMPTY_SET : Nat := 143
def ADDITEMS : Nat := 144
def FROZENSET : Nat := 145
def STACK_GLOBAL : Nat := 147
def MEMOIZE : Nat := 148
def FRAME : Nat := 149

/-- Sequencing helper: propagate an `Except` error into the fuel-indexed
`Option (Except …)` result of the dispatch loop. -/
def step {α β : Type} (r : Except Err (α × DState))
    (k : α → DState → Option (Except Err β)) : Option (Except Err β) :=
  match r with
  | .error e => some (.error e)
  | .ok (a, st) => k a st

/-- Sequencing helper for operations returning only a new state. -/
def stepD {β : Type} (r : Except Err DState)
    (k : DState → Option (Except Err β)) : Option (Except Err β) :=
  match r with
  | .error e => some (.error e)
  | .ok st => k st

/-- Source `parse_value` (src/de.rs:106): the opcode dispatch loop, run until the
STOP opcode pops and returns the stack top.  One unit of fuel is consumed
per loop iteration; `none` means the fuel ran out (each iteration reads at
least one byte, so `input.length + 1` fuel always suffices).  The FLOAT
text opcode keeps the raw line as the `F64` payload (floating-point
parsing is not interpreted; no claim concerns it). -/
def parse_value : Nat → DState → Option (Except Err (Value × DState))
  | 0, _ => none
  | fuel + 1, st =>
    step (read_byte st) fun op st =>
    if op = PROTO then
      step (read_byte st) fun _ st => parse_value fuel st
    else if op = FRAME then
      step (read_bytes st 8) fun _ st => parse_value fuel st
    else if op = STOP then
      some (pop st)
    else if op = MARK then
      parse_value fuel { st with stack := [], stacks' := st.stack :: st.stacks' }
    else if op = POP then
      if st.stack.isEmpty then
        step (pop_mark st) fun _ st => parse_value fuel st
      else
        step (pop st) fun _ st => parse_value fuel st
    else if op = POP_MARK then
      step (pop_mark st) fun _ st => parse_value fuel st
    else if op = DUP then
      match top_value st with
      | .error e => some (.error e)
      | .ok top => parse_value fuel { st with stack := top :: st.stack }
    else if op = PUT then
      step (read_line st) fun bytes st =>
        match parse_ascii_u32 bytes with
        | none => some (.error (.Eval (.InvalidLiteral bytes) st.pos))
        | some memo_id => stepD (memoize st memo_id) fun st => parse_value fuel st
    else if op = BINPUT then
      step (read_byte st) fun memo_id st =>
        stepD (memoize st memo_id) fun st => parse_value fuel st
    else if op = LONG_BINPUT then
      step (read_bytes st 4) fun bytes st =>
        stepD (memoize st (bytesToNatLE bytes)) fun st => parse_value fuel st
    else if op = MEMOIZE then
      stepD (memoize st st.memo.length) fun st => parse_value fuel st
    else if op = GET then
      step (read_line st) fun bytes st =>
        match parse_ascii_u32 bytes with
        | none => some (.error (.Eval (.InvalidLiteral bytes) st.pos))
        | some memo_id => parse_value fuel (push_memo_ref st memo_id)
    else if op = BINGET then
      step (read_byte st) fun memo_id st => parse_value fuel (push_memo_ref st memo_id)
    else if op = LONG_BINGET then
      step (read_bytes st 4) fun bytes st =>
        parse_value fuel (push_memo_ref st (bytesToNatLE bytes))
    else if op = NONE then
      parse_value fuel { st with stack := .None :: st.stack }
    else if op = NEWFALSE then
      parse_value fuel { st with stack := .Bool false :: st.stack }
    else if op = NEWTRUE then
      parse_value fuel { st with stack := .Bool true :: st.stack }
    else if op = INT then
      step (read_line st) fun line st =>
        match decode_text_int st.pos line with
        | .error e => some (.error e)
        | .ok v => parse_value fuel { st with stack := v :: st.stack }
    else if op = LONG then
      step (read_line st) fun line st =>
        match decode_text_long st.pos line with
        | .error e => some (.error e)
        | .ok v => parse_value fuel { st with stack := v :: st.stack }
    else if op = FLOAT then
      step (read_line st) fun line st =>
        parse_value fuel { st with stack := .F64 line :: st.stack }
    else if op = STRING then
      step (read_line st) fun line st =>
        match decode_escaped_string st.decode_strings st.pos line with
        | .error e => some (.error e)
        | .ok v => parse_value fuel { st with stack := v :: st.stack }
    else if op = UNICODE then
      step (read_line st) fun line st =>
        match decode_escaped_unicode st.pos line with
        | .error e => some (.error e)
        | .ok v => parse_value fuel { st with stack := v :: st.stack }
    else if op = BINFLOAT then
      step (read_bytes st 8) fun bytes st =>
        parse_value fuel { st with stack := .F64 bytes :: st.stack }
    else if op = BININT then
      step (read_bytes st 4) fun bytes st =>
        let n := bytesToNatLE bytes
        let i : Int := if n < 2 ^ 31 then (n : Int) else (n : Int) - 2 ^ 32
        parse_value fuel { st with stack := .I64 i :: st.stack }
    else if op = BININT1 then
      step (read_byte st) fun b st =>
        parse_value fuel { st with stack := .I64 (b : Int) :: st.stack }
    else if op = BININT2 then
      step (read_bytes st 2) fun bytes st =>
        parse_value fuel { st with stack := .I64 (bytesToNatLE bytes : Int) :: st.stack }
    else if op = LONG1 then
      step (read_u8_prefixed_bytes st) fun bytes st =>
        parse_value fuel { st with stack := decode_binary_long bytes :: st.stack }
    else if op = LONG4 then
      step (read_i32_prefixed_bytes st) fun bytes st =>
        parse_value fuel { st with stack := decode_binary_long bytes :: st.stack }
    else if op = SHORT_BINBYTES then
      step (read_u8_prefixed_bytes st) fun string st =>
        parse_value fuel { st with stack := .Bytes string :: st.stack }
    else if op = BINBYTES then
      step (read_u32_prefixed_bytes st) fun string st =>
        parse_value fuel { st with stack := .Bytes string :: st.stack }
    else if op = BINBYTES8 then
      step (read_u64_prefixed_bytes st) fun string st =>
        parse_value fuel { st with stack := .Bytes string :: st.stack }
    else if op = SHORT_BINSTRING then
      step (read_u8_prefixed_bytes st) fun string st =>
        match decode_string st.decode_strings st.pos string with
        | .error e => some (.error e)
        | .ok v => parse_value fuel { st with stack := v :: st.stack }
    else if op = BINSTRING then
      step (read_i32_prefixed_bytes st) fun string st =>
        match decode_string st.decode_strings st.pos string with
        | .error e => some (.error e)
        | .ok v => parse_value fuel { st with stack := v :: st.stack }
    else if op = SHORT_BINUNICODE then
      step (read_u8_prefixed_bytes st) fun string st =>
        match decode_unicode st.pos string with
        | .error e => some (.error e)
        | .ok v => parse_value fuel { st with stack := v :: st.stack }
    else if op = BINUNICODE then
      step (read_u32_prefixed_bytes st) fun string st =>
        match decode_unicode st.pos string with
        | .error e => some (.error e)
        | .ok v => parse_value fuel { st with stack := v :: st.stack }
    else if op = BINUNICODE8 then
      step (read_u64_prefixed_bytes st) fun string st =>
        match decode_unicode st.pos string with
        | .error e => some (.error e)
        | .ok v => parse_value fuel { st with stack := v :: st.stack }
    else if op = EMPTY_TUPLE then
      parse_value fuel { st with stack := .Tuple [] :: st.stack }
    else if op = TUPLE1 then
      step (pop st) fun item st =>
        parse_value fuel { st with stack := .Tuple [item] :: st.stack }
    else if op = TUPLE2 then
      step (pop st) fun item2 st =>
      step (pop st) fun item1 st =>
        parse_value fuel { st with stack := .Tuple [item1, item2] :: st.stack }
    else if op = TUPLE3 then
      step (pop st) fun item3 st =>
      step (pop st) fun item2 st =>
      step (pop st) fun item1 st =>
        parse_value fuel { st with stack := .Tuple [item1, item2, item3] :: st.stack }
    else if op = TUPLE then
      step (pop_mark st) fun items st =>
        parse_value fuel { st with stack := .Tuple items :: st.stack }
    else if op = EMPTY_LIST then
      parse_value fuel { st with stack := .List [] :: st.stack }
    else if op = LIST then
      step (pop_mark st) fun items st =>
        parse_value fuel { st with stack := .List items :: st.stack }
    else if op = APPEND then
      step (pop st) fun value st =>
        stepD (modify_list st (fun list => list ++ [value])) fun st => parse_value fuel st
    else if op = APPENDS then
      step (pop_mark st) fun items st =>
        stepD (modify_list st (fun list => list ++ items)) fun st => parse_value fuel st
    else if op = EMPTY_DICT then
      parse_value fuel { st with stack := .Dict [] :: st.stack }
    else if op = DICT then
      step (pop_mark st) fun items st =>
        parse_value fuel { st with stack := .Dict (extend_dict [] items) :: st.stack }
    else if op = SETITEM then
      step (pop st) fun value st =>
      step (pop st) fun key st =>
        stepD (modify_dict st (fun dict => dict ++ [(key, value)])) fun st =>
          parse_value fuel st
    else if op = SETITEMS then
      step (pop_mark st) fun items st =>
        stepD (modify_dict st (fun dict => extend_dict dict items)) fun st =>
          parse_value fuel st
    else if op = EMPTY_SET then
      parse_value fuel { st with stack := .Set [] :: st.stack }
    else if op = FROZENSET then
      step (pop_mark st) fun items st =>
        parse_value fuel { st with stack := .FrozenSet items :: st.stack }
    else if op = ADDITEMS then
      step (pop_mark st) fun items st =>
        stepD (modify_set st (fun s => s ++ items)) fun st => parse_value fuel st
    else if op = GLOBAL then
      step (read_line st) fun modname st =>
      step (read_line st) fun globname st =>
        match decode_global st modname globname with
        | .error e => some (.error e)
        | .ok value => parse_value fuel { st with stack := value :: st.stack }
    else if op = STACK_GLOBAL then
      step (pop st) fun g st =>
        match g with
        | .String gs =>
            step (pop st) fun m st =>
              match m with
              | .String ms =>
                  match decode_global st (utf8Encode ms) (utf8Encode gs) with
                  | .error e => some (.error e)
                  | .ok value => parse_value fuel { st with stack := value :: st.stack }
              | other => some (.error (.Eval (.InvalidStackTop "string" other) st.pos))
        | other => some (.error (.Eval (.InvalidStackTop "string" other) st.pos))
    else if op = REDUCE then
      step (pop_resolve st) fun argt st =>
        match argt with
        | .Tuple args =>
            step (pop_resolve st) fun global st =>
              stepD (reduce_global st global args) fun st => parse_value fuel st
        | other => some (.error (.Eval (.InvalidStackTop "tuple" other) st.pos))
    else
      some (.error (.Eval (.Unsupported op) st.pos))

/-- Modelled from the spec (§3): `HashableValue` of the missing `value.rs` —
the canonical hashable values (every variant except List/Set/Dict; frozen
sets and tuples are hashable if recursively hashable).  `F64` keeps its
raw-byte representation, `Int` is `BigInt`. -/
inductive HashableValue where
  | None
  | Bool (b : Bool)
  | I64 (i : Int)
  | Int (i : Int)
  | F64 (raw : List Nat)
  | Bytes (bs : List Nat)
  | String (s : String)
  | Tuple (items : List HashableValue)
  | FrozenSet (items : List HashableValue)

/-- Modelled from the spec (§3): the canonical `Value` of the missing
`value.rs`: no MemoRef, no Global; Set/FrozenSet are ordered sets of
hashable values; Dict maps hashable values to values. -/
inductive CanonValue where
  | None
  | Bool (b : Bool)
  | I64 (i : Int)
  | Int (i : Int)
  | F64 (raw : List Nat)
  | Bytes (bs : List Nat)
  | String (s : String)
  | List (items : List CanonValue)
  | Tuple (items : List CanonValue)
  | Set (items : List HashableValue)
  | FrozenSet (items : List HashableValue)
  | Dict (items : List (HashableValue × CanonValue))

/-- Modelled from the spec: variant rank for the ordering of hashable
values in the canonical ordered-set containers. -/
def hvRank : HashableValue → Nat
  | .None => 0
  | .Bool _ => 1
  | .I64 _ => 2
  | .Int _ => 3
  | .F64 _ => 4
  | .Bytes _ => 5
  | .String _ => 6
  | .Tuple _ => 7
  | .FrozenSet _ => 8

/-- Lexicographic comparison of byte lists. -/
def cmpBytes : List Nat → List Nat → Ordering
  | [], [] => .eq
  | [], _ :: _ => .lt
  | _ :: _, [] => .gt
  | a :: as', b :: bs' =>
      match compare a b with
      | .eq => cmpBytes as' bs'
      | o => o

mutual

/-- Modelled from the spec: a total comparison on hashable values (variant
rank first, then payload), used for the ordered-set and ordered-map
containers of the canonical value.  Fuel-indexed to recurse through the
nested lists; callers pass ample fuel.  No claim depends on the relative
order of distinct elements. -/
def hcmp : Nat → HashableValue → HashableValue → Ordering
  | 0, _, _ => .lt
  | fuel + 1, a, b =>
      match a, b with
      | .None, .None => .eq
      | .Bool x, .Bool y => compare x y
      | .I64 x, .I64 y => compare x y
      | .Int x, .Int y => compare x y
      | .F64 x, .F64 y => cmpBytes x y
      | .Bytes x, .Bytes y => cmpBytes x y
      | .String x, .String y => compare x y
      | .Tuple x, .Tuple y => hcmpList fuel x y
      | .FrozenSet x, .FrozenSet y => hcmpList fuel x y
      | _, _ => compare (hvRank a) (hvRank b)

/-- Lexicographic comparison of hashable-value lists (fuel-indexed with
`hcmp`). -/
def hcmpList : Nat → List HashableValue → List HashableValue → Ordering
  | 0, _, _ => .lt
  | fuel + 1, xs, ys =>
      match xs, ys with
      | [], [] => .eq
      | [], _ :: _ => .lt
      | _ :: _, [] => .gt
      | x :: xs', y :: ys' =>
          match hcmp fuel x y with
          | .eq => hcmpList fuel xs' ys'
          | o => o

end

/-- Modelled from the spec: `BTreeSet` insertion — sorted insert that keeps
the existing element when an equal one is inserted (duplicates collapse). -/
def hinsert (fuel : Nat) : List HashableValue → HashableValue → List HashableValue
  | [], x => [x]
  | y :: rest, x =>
      match hcmp fuel x y with
      | .lt => x :: y :: rest
      | .eq => y :: rest
      | .gt => y :: hinsert fuel rest x

/-- Modelled from the spec: `BTreeMap` insertion — sorted insert on the
key; an equal key has its value replaced (last write wins). -/
def minsert (fuel : Nat) :
    List (HashableValue × CanonValue) → HashableValue → CanonValue →
      List (HashableValue × CanonValue)
  | [], k, v => [(k, v)]
  | (k0, v0) :: rest, k, v =>
      match hcmp fuel k k0 with
      | .lt => (k, v) :: (k0, v0) :: rest
      | .eq => (k, v) :: rest
      | .gt => (k0, v0) :: minsert fuel rest k v

mutual

/-- Modelled from the spec (§4.7 and glossary): `Value::into_hashable` of
the missing `value.rs` — List/Set/Dict are not hashable; tuples convert
element-wise, everything else converts directly. -/
def into_hashable : Nat → CanonValue → Option (Except Err HashableValue)
  | 0, _ => none
  | fuel + 1, v =>
      match v with
      | .None => some (.ok .None)
      | .Bool b => some (.ok (.Bool b))
      | .I64 i => some (.ok (.I64 i))
      | .Int i => some (.ok (.Int i))
      | .F64 raw => some (.ok (.F64 raw))
      | .Bytes bs => some (.ok (.Bytes bs))
      | .String s => some (.ok (.String s))
      | .Tuple items => into_hashable_list fuel items []
      | .FrozenSet items => some (.ok (.FrozenSet items))
      | .List _ => some (.error (.Syntax (.Custom "unhashable type")))
      | .Set _ => some (.error (.Syntax (.Custom "unhashable type")))
      | .Dict _ => some (.error (.Syntax (.Custom "unhashable type")))

/-- Element-wise `into_hashable` over a tuple's items (accumulator in
reverse order). -/
def into_hashable_list : Nat → List CanonValue → List HashableValue →
    Option (Except Err HashableValue)
  | 0, _, _ => none
  | _ + 1, [], acc => some (.ok (.Tuple acc.reverse))
  | fuel + 1, v :: rest, acc =>
      match into_hashable fuel v with
      | none => none
      | some (.error e) => some (.error e)
      | some (.ok h) => into_hashable_list fuel rest (h :: acc)

end

/-- Source `resolve_recursive` (src/de.rs:448): resolve a memo reference during
canonicalization/visiting.  The value is *moved out* of the memo while `f`
visits it — an empty slot on re-entry is the cycle signal and yields the
`Recursive` error.  The refcount is decremented; when references remain
the value is re-inserted after `f` (on success). -/
def resolve_recursive {α : Type} (st : DState) (id : Nat)
    (f : DState → Value → Option (Except Err (α × DState))) :
    Option (Except Err (α × DState)) :=
  match alookup st.memo id with
  | none => some (.error (.Syntax .Recursive))
  | some value =>
      let st1 := { st with memo := aerase st.memo id }
      let (new_count, st2) : Int × DState :=
        match alookup st1.memo_refs id with
        | some count => (count - 1, { st1 with memo_refs := ainsert st1.memo_refs id (count - 1) })
        | none => (0, st1)
      if new_count ≤ 0 then f st2 value
      else
        match f st2 value with
        | some (.ok (t, st3)) => some (.ok (t, { st3 with memo := ainsert st3.memo id value }))
        | other => other

mutual

/-- Source `deserialize_value` (src/de.rs:790): the canonicalizer, converting an
intermediate `Value` into the canonical value.  `Int` is narrowed to `I64`
exactly when `BigInt::to_i64` succeeds (the value fits the i64 range);
`MemoRef` goes through `resolve_recursive`; a surviving `Global` is an
`UnresolvedGlobal` error.  Fuel-indexed (`none` = fuel exhausted). -/
def deserialize_value : Nat → DState → Value → Option (Except Err (CanonValue × DState))
  | 0, _, _ => none
  | fuel + 1, st, v =>
      match v with
      | .None => some (.ok (.None, st))
      | .Bool b => some (.ok (.Bool b, st))
      | .I64 i => some (.ok (.I64 i, st))
      | .Int i =>
          if -(2 ^ 63) ≤ i ∧ i < 2 ^ 63 then some (.ok (.I64 i, st))
          else some (.ok (.Int i, st))
      | .F64 raw => some (.ok (.F64 raw, st))
      | .Bytes bs => some (.ok (.Bytes bs, st))
      | .String s => some (.ok (.String s, st))
      | .List items =>
          match deserialize_list fuel st items [] with
          | none => none
          | some (.error e) => some (.error e)
          | some (.ok (new_list, st1)) => some (.ok (.List new_list, st1))
      | .Tuple items =>
          match deserialize_list fuel st items [] with
          | none => none
          | some (.error e) => some (.error e)
          | some (.ok (new_list, st1)) => some (.ok (.Tuple new_list, st1))
      | .Set items =>
          match deserialize_hset fuel st items [] with
          | none => none
          | some (.error e) => some (.error e)
          | some (.ok (new_set, st1)) => some (.ok (.Set new_set, st1))
      | .FrozenSet items =>
          match deserialize_hset fuel st items [] with
          | none => none
          | some (.error e) => some (.error e)
          | some (.ok (new_set, st1)) => some (.ok (.FrozenSet new_set, st1))
      | .Dict items =>
          match deserialize_dict fuel st items [] with
          | none => none
          | some (.error e) => some (.error e)
          | some (.ok (map, st1)) => some (.ok (.Dict map, st1))
      | .MemoRef memo_id =>
          resolve_recursive st memo_id (fun st v => deserialize_value fuel st v)
      | .Global _ => some (.error (.Syntax .UnresolvedGlobal))

/-- Element-wise canonicalization of a List/Tuple (accumulator reversed at
the end). -/
def deserialize_list : Nat → DState → List Value → List CanonValue →
    Option (Except Err (List CanonValue × DState))
  | 0, _, _, _ => none
  | _ + 1, st, [], acc => some (.ok (acc.reverse, st))
  | fuel + 1, st, v :: rest, acc =>
      match deserialize_value fuel st v with
      | none => none
      | some (.error e) => some (.error e)
      | some (.ok (cv, st1)) => deserialize_list fuel st1 rest (cv :: acc)

/-- Element-wise canonicalization of Set/FrozenSet items: each element is
canonicalized, converted with `into_hashable`, and inserted into the
ordered set. -/
def deserialize_hset : Nat → DState → List Value → List HashableValue →
    Option (Except Err (List HashableValue × DState))
  | 0, _, _, _ => none
  | _ + 1, st, [], acc => some (.ok (acc, st))
  | fuel + 1, st, v :: rest, acc =>
      match deserialize_value fuel st v with
      | none => none
      | some (.error e) => some (.error e)
      | some (.ok (cv, st1)) =>
          match into_hashable fuel cv with
          | none => none
          | some (.error e) => some (.error e)
          | some (.ok h) => deserialize_hset fuel st1 rest (hinsert fuel acc h)

/-- Pair-wise canonicalization of Dict items: keys must be hashable;
`BTreeMap::insert` gives last-write-wins on duplicate keys. -/
def deserialize_dict : Nat → DState → List (Value × Value) →
    List (HashableValue × CanonValue) →
    Option (Except Err (List (HashableValue × CanonValue) × DState))
  | 0, _, _, _ => none
  | _ + 1, st, [], acc => some (.ok (acc, st))
  | fuel + 1, st, (key, value) :: rest, acc =>
      match deserialize_value fuel st key with
      | none => none
      | some (.error e) => some (.error e)
      | some (.ok (ck, st1)) =>
          match into_hashable fuel ck with
          | none => none
          | some (.error e) => some (.error e)
          | some (.ok hk) =>
              match deserialize_value fuel st1 value with
              | none => none
              | some (.error e) => some (.error e)
              | some (.ok (cv, st2)) =>
                  deserialize_dict fuel st2 rest (minsert fuel acc hk cv)

end

/-- Source `end` (src/de.rs:473): assert the stream is exhausted; a remaining byte
is a `TrailingBytes` error (the read does not advance `pos`). -/
def end_stream (st : DState) : Except Err Unit :=
  match st.input with
  | [] => .ok ()
  | _ :: _ => .error (.Eval .TrailingBytes st.pos)

/-- Source `value_from_reader` / `value_from_slice` (src/de.rs:1077-1088):
construct the decoder in strings-as-bytes mode, parse to STOP,
canonicalize, then assert exhaustion. -/
def value_from_slice (fuel : Nat) (input : List Nat) : Option (Except Err CanonValue) :=
  match parse_value fuel (initState input false) with
  | none => none
  | some (.error e) => some (.error e)
  | some (.ok (iv, st)) =>
      match deserialize_value fuel st iv with
      | none => none
      | some (.error e) => some (.error e)
      | some (.ok (v, st1)) =>
          match end_stream st1 with
          | .error e => some (.error e)
          | .ok _ => some (.ok v)

/-- Source `from_reader` / `from_slice` (src/de.rs:1063-1074), the typed family,
parametric in the serde-driven deserialization step for the target type
`T` (`de::Deserialize::deserialize(&mut de)`): run the step on a fresh
strings-as-bytes decoder, then assert exhaustion with `end`. -/
def from_reader_generic {T : Type} (deser : DState → Option (Except Err (T × DState)))
    (input : List Nat) : Option (Except Err T) :=
  match deser (initState input false) with
  | none => none
  | some (.error e) => some (.error e)
  | some (.ok (v, st)) =>
      match end_stream st with
      | .error e => some (.error e)
      | .ok _ => some (.ok v)

/-- Unsigned little-endian value of a byte list as the spec writes it:
the positional sum `Σ bs[i] · 256^i`. -/
def unsignedLE (bs : List Nat) : Nat :=
  ∑ i ∈ Finset.range bs.length, bs.getD i 0 * 256 ^ i

theorem alookup_aerase {α : Type} (m : List (Nat × α)) (id : Nat) :
    alookup (aerase m id) id = none := by
  induction m with
  | nil => simp [aerase, alookup]
  | cons kv rest ih =>
      obtain ⟨k, w⟩ := kv
      by_cases h : k = id
      · simpa [aerase, h] using ih
      · simpa [aerase, alookup, h] using ih

theorem bytesToNatLE_eq_unsignedLE (bs : List Nat) : bytesToNatLE bs = unsignedLE bs := by
  induction bs with
  | nil => simp [bytesToNatLE, unsignedLE]
  | cons b rest ih =>
      simp only [bytesToNatLE, unsignedLE, List.length_cons]
      rw [Finset.sum_range_succ']
      simp only [List.getD_cons_succ, List.getD_cons_zero, pow_zero, mul_one, pow_succ]
      rw [ih]
      simp only [unsignedLE]
      rw [Finset.mul_sum]
      rw [add_comm]
      congr 1
      refine Finset.sum_congr rfl fun i _ => ?_
      ring

theorem getLastD_mem (bs : List Nat) (h : bs ≠ []) : bs.getLastD 0 ∈ bs := by
  induction bs with
  | nil => simp at h
  | cons b rest ih =>
      cases rest with
      | nil => simp [List.getLastD]
      | cons c rest2 =>
          exact List.mem_cons_of_mem b (ih (by simp))

theorem land_128 : ∀ b < 256, ((b &&& 128 ≠ 0) ↔ 128 ≤ b) := by decide

/-- C1.  The claim states that `read_line` strips the `\n` terminator (and
a preceding `\r`).  The code does not: `read_until` includes the `\n` in
the buffer and only a trailing `\r` is popped, so the returned line keeps
its `\n` (and any `\r` before it).  Consequences at concrete inputs: the
raw `read_line` result on the stream `a\r\nb`; the stream `I1\n.`
(INT "1", STOP), which per the spec decodes to I64(1) but here fails with
`InvalidLiteral` on the line `1\n`; and the spec's own concrete scenario 4
(`GLOBAL __builtin__ set …`), which fails with `UnsupportedGlobal` because
the module-name line keeps its `\n`. -/
theorem c1_read_line_keeps_terminator :
    read_line (initState [97, 13, 10, 98] false) =
      .ok ([97, 13, 10], ⟨[98], 3, [], [], [], [], false⟩) ∧
    value_from_slice 8 [73, 49, 10, 46] =
      some (.error (.Eval (.InvalidLiteral [49, 10]) 3)) ∧
    value_from_slice 64
      [128, 3, 99, 95, 95, 98, 117, 105, 108, 116, 105, 110, 95, 95, 10,
       115, 101, 116, 10, 113, 0, 93, 113, 1, 40, 75, 0, 75, 1, 101, 133,
       113, 2, 82, 113, 3, 46] =
      some (.error (.Eval (.UnsupportedGlobal
        [95, 95, 98, 117, 105, 108, 116, 105, 110, 95, 95, 10]
        [115, 101, 116, 10]) 19)) :=
  ⟨rfl, rfl, rfl⟩

/-- C2 counterexample.  The stream `NN.` (NONE NONE STOP) decodes
successfully even though the operand stack holds two values when STOP
executes: STOP pops and returns the top, and the leftover `None` below it
is ignored (the final state after `parse_value` still contains it). -/
theorem c2_counterexample :
    value_from_slice 8 [78, 78, 46] = some (.ok .None) ∧
    parse_value 8 (initState [78, 78, 46] false) =
      some (.ok (.None, ⟨[], 3, [], [], [.None], [], false⟩)) :=
  ⟨rfl, rfl⟩

/-- C2 (amended).  When STOP executes, the dispatcher pops and returns the
stack top without checking that it is the only element — the stack may
hold any number of values, and any below the top are ignored; STOP on an
empty operand stack yields a StackUnderflow error. -/
theorem c2_stop_pops_top (st : DState) (rest : List Nat) (fuel : Nat)
    (hin : st.input = STOP :: rest) :
    (st.stack = [] →
      parse_value (fuel + 1) st = some (.error (.Eval .StackUnderflow (st.pos + 1)))) ∧
    (∀ v s, st.stack = v :: s →
      parse_value (fuel + 1) st =
        some (.ok (v, { st with input := rest, pos := st.pos + 1, stack := s }))) := by
  obtain ⟨input, pos, memo, refs, stack, stacks1, ds⟩ := st
  simp only [DState.mk.injEq] at hin ⊢
  subst hin
  constructor
  · intro hstack
    subst hstack
    simp [parse_value, step, read_byte, pop, STOP, PROTO, FRAME]
  · intro v s hstack
    subst hstack
    simp [parse_value, step, read_byte, pop, STOP, PROTO, FRAME]

/-- C2 witness: the amended claim applied at concrete states — STOP with
an empty stack underflows; STOP with a two-element stack returns the top
and leaves the second element alone. -/
theorem c2_witness :
    parse_value 3 ⟨[46], 0, [], [], [], [], false⟩ =
      some (.error (.Eval .StackUnderflow 1)) ∧
    parse_value 3 ⟨[46, 9], 5, [], [], [.I64 1, .None], [], false⟩ =
      some (.ok (.I64 1, ⟨[9], 6, [], [], [.None], [], false⟩)) := by
  refine ⟨?_, ?_⟩
  · exact (c2_stop_pops_top ⟨[46], 0, [], [], [], [], false⟩ [] 2 rfl).1 rfl
  · exact (c2_stop_pops_top ⟨[46, 9], 5, [], [], [.I64 1, .None], [], false⟩ [9] 2 rfl).2
      (.I64 1) [.None] rfl

/-- C3 counterexample.  The stream `h\x00.` (BINGET 0 with an empty memo,
then STOP) dereferences memo id 0 at canonicalization; the claim says this
yields MissingMemo(0), but the decoder returns the `Recursive` error
(`resolve_recursive` cannot distinguish a never-stored id from an
in-progress one). -/
theorem c3_counterexample :
    value_from_slice 8 [104, 0, 46] = some (.error (.Syntax .Recursive)) :=
  rfl

/-- C3 (amended).  A dereference of an unknown memo id yields
MissingMemo(id) only on the in-stream paths that go through `top`
(composite mutation, DUP) and through `memoize` (PUT-family of a MemoRef
top); `pop_resolve` (REDUCE operands) maps an absent id to StackUnderflow,
and canonicalization (`resolve_recursive`) maps it to the Recursive
error. -/
theorem c3_missing_memo_behavior (st : DState) (n : Nat)
    (hmiss : alookup st.memo n = none) :
    (∀ t, st.stack = .MemoRef n :: t →
      top_value st = .error (.Syntax (.MissingMemo n)) ∧
      (∀ id, memoize st id = .error (.Eval (.MissingMemo n) st.pos)) ∧
      pop_resolve st = .error (.Eval .StackUnderflow st.pos)) ∧
    (∀ fuel, deserialize_value (fuel + 1) st (.MemoRef n) =
      some (.error (.Syntax .Recursive))) := by
  obtain ⟨input, pos, memo, refs, stack, stacks1, ds⟩ := st
  simp only at hmiss
  constructor
  · intro t hstack
    simp only [DState.mk.injEq] at hstack ⊢
    subst hstack
    refine ⟨?_, ?_, ?_⟩
    · simp [top_value, hmiss]
    · intro id
      simp [memoize, pop, hmiss]
    · simp only [pop_resolve, resolve]
      cases h : alookup refs n <;> simp [h, hmiss]
  · intro fuel
    simp [deserialize_value, resolve_recursive, hmiss]

/-- C3 witness: the amended claim applied at a concrete state whose stack
top is `MemoRef 5` with an empty memo. -/
theorem c3_witness :
    top_value ⟨[], 7, [], [], [.MemoRef 5], [], false⟩ =
      .error (.Syntax (.MissingMemo 5)) ∧
    memoize ⟨[], 7, [], [], [.MemoRef 5], [], false⟩ 3 =
      .error (.Eval (.MissingMemo 5) 7) ∧
    pop_resolve ⟨[], 7, [], [], [.MemoRef 5], [], false⟩ =
      .error (.Eval .StackUnderflow 7) ∧
    deserialize_value 1 ⟨[], 7, [], [], [.MemoRef 5], [], false⟩ (.MemoRef 5) =
      some (.error (.Syntax .Recursive)) := by
  have h := c3_missing_memo_behavior ⟨[], 7, [], [], [.MemoRef 5], [], false⟩ 5 rfl
  exact ⟨(h.1 _ rfl).1, (h.1 _ rfl).2.1 3, (h.1 _ rfl).2.2, h.2 0⟩

/-- C4.  `decode_binary_long` implements little-endian two's complement:
the empty byte string decodes to 0; when the high bit of the last byte is
set the result is the unsigned little-endian value minus `2^(8·len)`;
otherwise it is the unsigned little-endian value (`unsignedLE` is the
spec's positional sum `Σ bs[i]·256^i`). -/
theorem c4_decode_binary_long :
    decode_binary_long [] = .Int 0 ∧
    (∀ bs : List Nat, bs ≠ [] → (∀ b ∈ bs, b < 256) → 128 ≤ bs.getLastD 0 →
      decode_binary_long bs = .Int ((unsignedLE bs : Int) - 2 ^ (8 * bs.length))) ∧
    (∀ bs : List Nat, (∀ b ∈ bs, b < 256) → bs.getLastD 0 < 128 →
      decode_binary_long bs = .Int (unsignedLE bs)) := by
  refine ⟨rfl, ?_, ?_⟩
  · intro bs hne hlt hhigh
    have hlast : bs.getLastD 0 < 256 := hlt _ (getLastD_mem bs hne)
    have hbit : bs.getLastD 0 &&& 128 ≠ 0 := (land_128 _ hlast).2 hhigh
    simp only [decode_binary_long, Value.Int.injEq]
    have hbit' : bs.getLast?.getD 0 &&& 128 ≠ 0 := by
      rwa [List.getLastD_eq_getLast?] at hbit
    rw [if_pos]
    · rw [bytesToNatLE_eq_unsignedLE, mul_comm 8 bs.length]
    · simp [List.isEmpty_iff, hne, hbit']
  · intro bs hlt hhigh
    cases bs with
    | nil => simp [decode_binary_long, unsignedLE, bytesToNatLE]
    | cons b rest =>
        have hne : b :: rest ≠ [] := by simp
        have hlast : (b :: rest).getLastD 0 < 256 := hlt _ (getLastD_mem _ hne)
        have hbit : ¬((b :: rest).getLastD 0 &&& 128 ≠ 0) := by
          intro hcontra
          exact absurd ((land_128 _ hlast).1 hcontra) (by omega)
        simp only [decode_binary_long, Value.Int.injEq]
        rw [if_neg, bytesToNatLE_eq_unsignedLE]
        simp only [Bool.and_eq_true, Bool.not_eq_true, List.isEmpty_iff, bne_iff_ne]
        intro hc
        exact absurd hc.2 hbit

/-- C4 witness: the theorem applied at `[0x2a]` (positive) and
`[0x00, 0x80]` (high bit of the last byte set: `0x8000 - 2^16 = -32768`). -/
theorem c4_witness :
    decode_binary_long [42] = .Int 42 ∧
    decode_binary_long [0, 128] = .Int (-32768) := by
  constructor
  · have h := c4_decode_binary_long.2.2 [42] (by decide) (by decide)
    simpa [unsignedLE] using h
  · have h := c4_decode_binary_long.2.1 [0, 128] (by decide) (by decide) (by decide)
    rw [h]
    norm_num [unsignedLE, Finset.sum_range_succ]

/-- C5.  Cycle detection at canonicalization: re-entering a memo id whose
slot is empty (the value was moved out by `resolve_recursive`) yields
exactly the `Recursive` error; in particular a memo entry that contains a
`MemoRef` to itself (built e.g. by APPEND-ing a GET of a list into the
list) always canonicalizes to `Recursive`, and the concrete cyclic stream
`]q\x00h\x00a.` (EMPTY_LIST, BINPUT 0, BINGET 0, APPEND, STOP) first
builds `memo[0] = List [MemoRef 0]` and then fails with exactly
`Recursive` — no hang (the run consumes bounded fuel) and no panic. -/
theorem c5_recursive_cycle :
    (∀ (fuel : Nat) (st : DState) (id : Nat),
      alookup st.memo id = none →
      deserialize_value (fuel + 1) st (.MemoRef id) = some (.error (.Syntax .Recursive))) ∧
    (∀ (fuel : Nat) (st : DState) (id : Nat) (l2 : List Value),
      alookup st.memo id = some (.List (.MemoRef id :: l2)) →
      deserialize_value (fuel + 4) st (.MemoRef id) = some (.error (.Syntax .Recursive))) ∧
    parse_value 16 (initState [93, 113, 0, 104, 0, 97, 46] false) =
      some (.ok (.MemoRef 0, ⟨[], 7, [(0, .List [.MemoRef 0])], [(0, 2)], [], [], false⟩)) ∧
    value_from_slice 16 [93, 113, 0, 104, 0, 97, 46] = some (.error (.Syntax .Recursive)) := by
  refine ⟨?_, ?_, rfl, rfl⟩
  · intro fuel st id hmiss
    simp [deserialize_value, resolve_recursive, hmiss]
  · intro fuel st id l2 hmem
    simp only [deserialize_value, resolve_recursive, hmem]
    cases h : alookup st.memo_refs id with
    | none =>
        simp [deserialize_value, deserialize_list, resolve_recursive, alookup_aerase]
    | some c =>
        by_cases hc : c - 1 ≤ 0 <;>
          simp [h, hc, deserialize_value, deserialize_list, resolve_recursive, alookup_aerase]

/-- C5 witness: the universal parts applied at concrete states — a missing
id and a directly self-referential memo entry. -/
theorem c5_witness :
    deserialize_value 1 ⟨[], 0, [], [], [], [], false⟩ (.MemoRef 3) =
      some (.error (.Syntax .Recursive)) ∧
    deserialize_value 4 ⟨[], 0, [(0, .List [.MemoRef 0])], [(0, 2)], [], [], false⟩
      (.MemoRef 0) = some (.error (.Syntax .Recursive)) := by
  constructor
  · exact c5_recursive_cycle.1 0 ⟨[], 0, [], [], [], [], false⟩ 3 rfl
  · exact c5_recursive_cycle.2.1 0
      ⟨[], 0, [(0, .List [.MemoRef 0])], [(0, 2)], [], [], false⟩ 0 [] rfl

/-- C6.  Both entry-point families assert exhaustion after the STOP of a
successfully decoded value via `end`: a remaining byte is a
`TrailingBytes` error, an exactly exhausted stream is not.  Stated for
`end` itself, for the typed family `from_reader`/`from_slice` (parametric
in the serde-driven deserialization step), and for the untyped family
`value_from_reader`/`value_from_slice`. -/
theorem c6_trailing_bytes :
    (∀ st : DState,
      (st.input = [] → end_stream st = .ok ()) ∧
      (st.input ≠ [] → end_stream st = .error (.Eval .TrailingBytes st.pos))) ∧
    (∀ (T : Type) (deser : DState → Option (Except Err (T × DState)))
        (input : List Nat) (v : T) (st : DState),
      deser (initState input false) = some (.ok (v, st)) →
      (st.input ≠ [] →
        from_reader_generic deser input = some (.error (.Eval .TrailingBytes st.pos))) ∧
      (st.input = [] → from_reader_generic deser input = some (.ok v))) ∧
    (∀ (fuel : Nat) (input : List Nat) (iv : Value) (st : DState)
        (cv : CanonValue) (st1 : DState),
      parse_value fuel (initState input false) = some (.ok (iv, st)) →
      deserialize_value fuel st iv = some (.ok (cv, st1)) →
      (st1.input ≠ [] →
        value_from_slice fuel input = some (.error (.Eval .TrailingBytes st1.pos))) ∧
      (st1.input = [] → value_from_slice fuel input = some (.ok cv))) := by
  refine ⟨?_, ?_, ?_⟩
  · intro st
    constructor
    · intro h
      simp [end_stream, h]
    · intro h
      match hi : st.input with
      | [] => exact absurd hi h
      | b :: rest => simp [end_stream, hi]
  · intro T deser input v st hdeser
    constructor
    · intro h
      match hi : st.input with
      | [] => exact absurd hi h
      | b :: rest => simp [from_reader_generic, hdeser, end_stream, hi]
    · intro h
      simp [from_reader_generic, hdeser, end_stream, h]
  · intro fuel input iv st cv st1 hparse hcanon
    constructor
    · intro h
      match hi : st1.input with
      | [] => exact absurd hi h
      | b :: rest => simp [value_from_slice, hparse, hcanon, end_stream, hi]
    · intro h
      simp [value_from_slice, hparse, hcanon, end_stream, h]

/-- C6 witness: the theorem applied to concrete runs — `N.` plus one
trailing byte is a `TrailingBytes` error, `N.` exactly exhausted succeeds,
and a typed-family step that consumes nothing on a nonempty input also
reports `TrailingBytes`. -/
theorem c6_witness :
    value_from_slice 8 [78, 46, 0] = some (.error (.Eval .TrailingBytes 2)) ∧
    value_from_slice 8 [78, 46] = some (.ok .None) ∧
    from_reader_generic (fun st => some (.ok ((0 : Nat), st))) [5] =
      some (.error (.Eval .TrailingBytes 0)) := by
  refine ⟨?_, ?_, ?_⟩
  · exact (c6_trailing_bytes.2.2 8 [78, 46, 0] .None ⟨[0], 2, [], [], [], [], false⟩
      .None ⟨[0], 2, [], [], [], [], false⟩ rfl rfl).1 (by simp)
  · exact (c6_trailing_bytes.2.2 8 [78, 46] .None ⟨[], 2, [], [], [], [], false⟩
      .None ⟨[], 2, [], [], [], [], false⟩ rfl rfl).2 rfl
  · exact (c6_trailing_bytes.2.1 Nat (fun st => some (.ok (0, st))) [5] 0
      (initState [5] false) rfl).1 (by simp [initState])

/-- C7.  REDUCE of `_codecs.encode`: when both tuple arguments are
Strings the pushed result is Bytes obtained by mapping each character of
the first (string) argument to its Unicode scalar value truncated to
8 bits (`ch as u8`, i.e. `toNat % 256`); the second (encoding) argument's
value is never inspected (any String is accepted) but it must be present —
with one or zero arguments the reduction is an `InvalidValue` error. -/
theorem c7_codecs_encode (st : DState) (s enc : String) :
    reduce_global st (.Global .Encode) [.String s, .String enc] =
      .ok { st with stack := .Bytes (s.data.map fun ch => ch.toNat % 256) :: st.stack } ∧
    reduce_global st (.Global .Encode) [.String enc] =
      .error (.Eval (.InvalidValue "encode() arg") st.pos) ∧
    reduce_global st (.Global .Encode) [] =
      .error (.Eval (.InvalidValue "encode() arg") st.pos) := by
  refine ⟨?_, ?_, ?_⟩ <;> simp [reduce_global, popLast, resolve]

/-- C7 witness: the theorem applied at a concrete state and strings
(`"Aÿ"` has scalars 65 and 255; the encoding string is arbitrary). -/
theorem c7_witness :
    reduce_global ⟨[], 4, [], [], [.None], [], false⟩ (.Global .Encode)
      [.String "Aÿ", .String "latin1"] =
      .ok ⟨[], 4, [], [], [.Bytes [65, 255], .None], [], false⟩ ∧
    reduce_global ⟨[], 4, [], [], [], [], false⟩ (.Global .Encode)
      [.String "x"] = .error (.Eval (.InvalidValue "encode() arg") 4) := by
  constructor
  · have h := (c7_codecs_encode ⟨[], 4, [], [], [.None], [], false⟩ "Aÿ" "latin1").1
    simpa using h
  · exact (c7_codecs_encode ⟨[], 4, [], [], [], [], false⟩ "x" "x").2.1


/-- C8.  Canonicalization maps `I64` through unchanged; an
arbitrary-precision `Int` is narrowed to `I64` exactly when it lies in
`[-2^63, 2^63)` (the `BigInt::to_i64` success range) and otherwise stays
`Int`; and the text-long decoder (LONG opcode) always produces the `Int`
variant, so narrowing of a LONG-produced value happens only at
canonicalization. -/
theorem c8_int_narrowing (fuel : Nat) (st : DState) (i : Int) :
    deserialize_value (fuel + 1) st (.I64 i) = some (.ok (.I64 i, st)) ∧
    (-(2 ^ 63) ≤ i → i < 2 ^ 63 →
      deserialize_value (fuel + 1) st (.Int i) = some (.ok (.I64 i, st))) ∧
    (i < -(2 ^ 63) ∨ 2 ^ 63 ≤ i →
      deserialize_value (fuel + 1) st (.Int i) = some (.ok (.Int i, st))) ∧
    (∀ (pos : Nat) (line : List Nat) (v : Value),
      decode_text_long pos line = .ok v → ∃ j, v = .Int j) := by
  refine ⟨rfl, ?_, ?_, ?_⟩
  · intro h1 h2
    norm_num at h1 h2
    simp [deserialize_value, h1, h2]
  · intro h
    have h' : ¬(-9223372036854775808 ≤ i ∧ i < 9223372036854775808) := by
      rcases h with h | h <;> norm_num at h <;> omega
    have : ¬(-(2 ^ 63 : Int) ≤ i ∧ i < 2 ^ 63) := by norm_num; omega
    simp only [deserialize_value]
    rw [if_neg this]
  · intro pos line v h
    simp only [decode_text_long] at h
    cases hp : parse_decimal_big
        (if line.getLast? = some 76 then line.dropLast else line) with
    | none => rw [hp] at h; exact absurd h (by simp)
    | some j =>
        rw [hp] at h
        simp only [Except.ok.injEq] at h
        exact ⟨j, h.symm⟩

/-- C8 witness: the theorem applied at the boundary values `2^63 - 1`
(narrows to I64) and `2^63` (stays Int), and at the LONG line `"1"`. -/
theorem c8_witness :
    deserialize_value 1 ⟨[], 0, [], [], [], [], false⟩ (.Int (2 ^ 63 - 1)) =
      some (.ok (.I64 (2 ^ 63 - 1), ⟨[], 0, [], [], [], [], false⟩)) ∧
    deserialize_value 1 ⟨[], 0, [], [], [], [], false⟩ (.Int (2 ^ 63)) =
      some (.ok (.Int (2 ^ 63), ⟨[], 0, [], [], [], [], false⟩)) ∧
    (∃ j, (Value.Int 1 : Value) = .Int j) := by
  refine ⟨?_, ?_, ?_⟩
  · exact (c8_int_narrowing 0 ⟨[], 0, [], [], [], [], false⟩ (2 ^ 63 - 1)).2.1
      (by norm_num) (by norm_num)
  · exact (c8_int_narrowing 0 ⟨[], 0, [], [], [], [], false⟩ (2 ^ 63)).2.2.1
      (Or.inr (by norm_num))
  · exact (c8_int_narrowing 0 ⟨[], 0, [], [], [], [], false⟩ 0).2.2.2 0 [49]
      (.Int 1) (by simp [decode_text_long, parse_decimal_big, isDigit, digitsToNat])

/-- C9.  The escape processing of the STRING-opcode decoder: `\\ \a \b \t
\n \v \f \r` map to their C byte values (0x5c, 7, 8, 9, 10, 11, 12, 13);
`\xHH` consumes exactly two hex digits and yields the byte they denote;
`\x` followed by zero or one (valid) hex digit is an `InvalidLiteral`
error, as is a backslash followed by any other character. -/
theorem c9_escapes (pos : Nat) (orig rest : List Nat) :
    escape_loop pos orig (92 :: 92 :: rest) = (escape_loop pos orig rest).map (92 :: ·) ∧
    escape_loop pos orig (92 :: 97 :: rest) = (escape_loop pos orig rest).map (7 :: ·) ∧
    escape_loop pos orig (92 :: 98 :: rest) = (escape_loop pos orig rest).map (8 :: ·) ∧
    escape_loop pos orig (92 :: 116 :: rest) = (escape_loop pos orig rest).map (9 :: ·) ∧
    escape_loop pos orig (92 :: 110 :: rest) = (escape_loop pos orig rest).map (10 :: ·) ∧
    escape_loop pos orig (92 :: 118 :: rest) = (escape_loop pos orig rest).map (11 :: ·) ∧
    escape_loop pos orig (92 :: 102 :: rest) = (escape_loop pos orig rest).map (12 :: ·) ∧
    escape_loop pos orig (92 :: 114 :: rest) = (escape_loop pos orig rest).map (13 :: ·) ∧
    (∀ c1 c2 v1 v2, hexDigit c1 = some v1 → hexDigit c2 = some v2 →
      escape_loop pos orig (92 :: 120 :: c1 :: c2 :: rest) =
        (escape_loop pos orig rest).map ((16 * v1 + v2) :: ·)) ∧
    (∀ c1 tail, hexDigit c1 = none →
      escape_loop pos orig (92 :: 120 :: c1 :: tail) =
        .error (.Eval (.InvalidLiteral orig) pos)) ∧
    (∀ c1 v1, hexDigit c1 = some v1 →
      escape_loop pos orig [92, 120, c1] = .error (.Eval (.InvalidLiteral orig) pos)) ∧
    (∀ c1 c2 v1, hexDigit c1 = some v1 → hexDigit c2 = none →
      escape_loop pos orig (92 :: 120 :: c1 :: c2 :: rest) =
        .error (.Eval (.InvalidLiteral orig) pos)) ∧
    escape_loop pos orig [92, 120] = .error (.Eval (.InvalidLiteral orig) pos) ∧
    escape_loop pos orig [92] = .error (.Eval (.InvalidLiteral orig) pos) ∧
    (∀ c, c ∉ ([92, 97, 98, 116, 110, 118, 102, 114, 120] : List Nat) →
      escape_loop pos orig (92 :: c :: rest) = .error (.Eval (.InvalidLiteral orig) pos)) := by
  refine ⟨?_, ?_, ?_, ?_, ?_, ?_, ?_, ?_, ?_, ?_, ?_, ?_, ?_, ?_, ?_⟩
  · simp [escape_loop, escape_code]
  · simp [escape_loop, escape_code]
  · simp [escape_loop, escape_code]
  · simp [escape_loop, escape_code]
  · simp [escape_loop, escape_code]
  · simp [escape_loop, escape_code]
  · simp [escape_loop, escape_code]
  · simp [escape_loop, escape_code]
  · intro c1 c2 v1 v2 h1 h2
    simp [escape_loop, escape_code, h1, h2]
  · intro c1 tail h1
    simp [escape_loop, escape_code, h1]
  · intro c1 v1 h1
    simp [escape_loop, escape_code, h1]
  · intro c1 c2 v1 h1 h2
    simp [escape_loop, escape_code, h1, h2]
  · simp [escape_loop, escape_code]
  · simp [escape_loop, escape_code]
  · intro c hc
    simp only [List.mem_cons, List.not_mem_nil, or_false, not_or] at hc
    obtain ⟨h1, h2, h3, h4, h5, h6, h7, h8, h9⟩ := hc
    simp [escape_loop, escape_code, h1, h2, h3, h4, h5, h6, h7, h8, h9]

/-- C9 witness: the theorem applied at concrete inputs — `\x41` decodes to
byte 0x41, `\x4` (one hex digit at end of line) and `\q` are
`InvalidLiteral` errors. -/
theorem c9_witness :
    escape_loop 0 [92, 120] [92, 120, 52, 49] = .ok [65] ∧
    escape_loop 0 [92, 120] [92, 120, 52] = .error (.Eval (.InvalidLiteral [92, 120]) 0) ∧
    escape_loop 7 [113] [92, 113] = .error (.Eval (.InvalidLiteral [113]) 7) := by
  refine ⟨?_, ?_, ?_⟩
  · have h := (c9_escapes 0 [92, 120] []).2.2.2.2.2.2.2.2.1 52 49 4 1 rfl rfl
    rw [h]
    simp [escape_loop, Except.map]
  · exact (c9_escapes 0 [92, 120] []).2.2.2.2.2.2.2.2.2.2.1 52 4 rfl
  · exact (c9_escapes 7 [113] []).2.2.2.2.2.2.2.2.2.2.2.2.2.2 113 (by decide)

/-- C10.  STACK_GLOBAL accepts only direct `String` stack entries: if
either of the two popped entries is a `MemoRef` — regardless of what the
memo maps that id to, so in particular even when the memo entry is a
String — the dispatcher returns an `InvalidStackTop("string", ·)` error
and never dereferences the reference. -/
theorem c10_stack_global_rejects_memo_ref (fuel : Nat) (st : DState)
    (rest : List Nat) (id : Nat) (t : List Value)
    (hin : st.input = STACK_GLOBAL :: rest) :
    (st.stack = .MemoRef id :: t →
      parse_value (fuel + 1) st =
        some (.error (.Eval (.InvalidStackTop "string" (.MemoRef id)) (st.pos + 1)))) ∧
    (∀ g : String, st.stack = .String g :: .MemoRef id :: t →
      parse_value (fuel + 1) st =
        some (.error (.Eval (.InvalidStackTop "string" (.MemoRef id)) (st.pos + 1)))) := by
  obtain ⟨input, pos, memo, refs, stack, stacks1, ds⟩ := st
  simp only at hin
  subst hin
  constructor
  · intro hstack
    simp only at hstack
    subst hstack
    rfl
  · intro g hstack
    simp only at hstack
    subst hstack
    rfl

/-- C10 witness: the theorem applied at concrete states whose memo maps
the referenced id to a String — the reference is still rejected. -/
theorem c10_witness :
    parse_value 1 ⟨[147], 4, [(7, .String "collections")], [], [.MemoRef 7], [], false⟩ =
      some (.error (.Eval (.InvalidStackTop "string" (.MemoRef 7)) 5)) ∧
    parse_value 1 ⟨[147], 0, [(7, .String "set")], [], [.String "set", .MemoRef 7], [], false⟩ =
      some (.error (.Eval (.InvalidStackTop "string" (.MemoRef 7)) 1)) := by
  constructor
  · exact (c10_stack_global_rejects_memo_ref 0
      ⟨[147], 4, [(7, .String "collections")], [], [.MemoRef 7], [], false⟩
      [] 7 [] rfl).1 rfl
  · exact (c10_stack_global_rejects_memo_ref 0
      ⟨[147], 0, [(7, .String "set")], [], [.String "set", .MemoRef 7], [], false⟩
      [] 7 [] rfl).2 "set" rfl
